import Mathlib

/-!
Shallow embedding of `goog.html.SafeUrl` (source/closure/goog/html/safeurl.js)
and `goog.structs.StringSet`, with theorems settling the frozen claims.

JS strings are modelled as Lean `String` / `List Char` (JS code-unit level
details only matter below U+10000, where `Char` and UTF-16 code units agree
for every character these functions inspect).  JS regular expressions are
hand-compiled to decidable character-list matchers; each matcher is annotated
with the regex literal it implements.  A JS function that can throw is
modelled with an `Option` result, `none` standing for a propagated exception.
-/

/-! ## Character helpers -/

/-- ASCII lower-casing, used both for `String.prototype.toLowerCase`-based
prefix comparison and for `/i` regex flags.  For the ASCII-only patterns in
this file, full Unicode case folding coincides with ASCII folding: the only
non-ASCII character whose JS lowercase form is a single ASCII letter is
U+212A (Kelvin sign, lowercases to `k`), and no pattern here contains `k`;
and in non-Unicode `/i` regex canonicalization a non-ASCII input character is
never identified with an ASCII one. -/
def lowerAscii (c : Char) : Char :=
  if 65 ≤ c.toNat ∧ c.toNat ≤ 90 then Char.ofNat (c.toNat + 32) else c

/-- Regex class `[0-9]`. -/
def isDigitChar (c : Char) : Bool :=
  48 ≤ c.toNat && c.toNat ≤ 57

/-- Regex class `[a-z]` under the `/i` flag, i.e. an ASCII letter. -/
def isAsciiLetter (c : Char) : Bool :=
  let d := lowerAscii c
  97 ≤ d.toNat && d.toNat ≤ 122

/-- Value of a hex digit (`[0-9a-fA-F]`), or `none`. -/
def hexVal (c : Char) : Option Nat :=
  if 48 ≤ c.toNat ∧ c.toNat ≤ 57 then some (c.toNat - 48)
  else if 97 ≤ c.toNat ∧ c.toNat ≤ 102 then some (c.toNat - 87)
  else if 65 ≤ c.toNat ∧ c.toNat ≤ 70 then some (c.toNat - 55)
  else none

/-- Strip a literal pattern from the head of a list, comparing characters
case-insensitively; `some rest` on success.  Implements matching the regex
fragment made of the literal characters of `pat` under `/i`. -/
def ciStrip : List Char → List Char → Option (List Char)
  | [], l => some l
  | _ :: _, [] => none
  | p :: ps, c :: cs => if lowerAscii c = lowerAscii p then ciStrip ps cs else none

/-- Strip a literal pattern from the head of a list, case-sensitively. -/
def csStrip : List Char → List Char → Option (List Char)
  | [], l => some l
  | _ :: _, [] => none
  | p :: ps, c :: cs => if c = p then csStrip ps cs else none

/-- Modelled from the spec: `goog.string.internal.caseInsensitiveStartsWith`
(required by safeurl.js but not under src/) — case-insensitive test that
`str` starts with `target`. -/
def caseInsensitiveStartsWith (str target : String) : Bool :=
  (ciStrip target.data str.data).isSome

/-! ## The SafeUrl value type (Trusted Value Core) -/

/-- Model of JS object identity for the constructor token:
`goog.html.SafeUrl.CONSTRUCTOR_TOKEN_PRIVATE_` is one particular object; any
token supplied from outside the module is a different object. -/
inductive GoogObject where
  | constructorTokenPrivate : GoogObject
  | outsider : Nat → GoogObject
deriving DecidableEq

/-- `goog.html.SafeUrl`: immutable wrapper holding one string payload. -/
structure SafeUrl where
  privateDoNotAccessOrElseSafeUrlWrappedValue_ : String
deriving DecidableEq

/-- The `goog.html.SafeUrl` class constructor: stores `value` only when the
supplied token is the module-private constructor token, else stores `''`. -/
def SafeUrl.construct (value : String) (token : GoogObject) : SafeUrl :=
  ⟨if token = GoogObject.constructorTokenPrivate then value else ""⟩

/-- `goog.html.SafeUrl.INNOCUOUS_STRING`. -/
def SafeUrl.INNOCUOUS_STRING : String := "about:invalid#zClosurez"

/-- `goog.html.SafeUrl.createSafeUrlSecurityPrivateDoNotAccessOrElse`. -/
def SafeUrl.createSafeUrlSecurityPrivateDoNotAccessOrElse (url : String) : SafeUrl :=
  SafeUrl.construct url GoogObject.constructorTokenPrivate

/-- `goog.html.SafeUrl.prototype.getTypedStringValue`. -/
def SafeUrl.getTypedStringValue (u : SafeUrl) : String :=
  u.privateDoNotAccessOrElseSafeUrlWrappedValue_

/-- `goog.html.SafeUrl.INNOCUOUS_URL`. -/
def SafeUrl.INNOCUOUS_URL : SafeUrl :=
  SafeUrl.createSafeUrlSecurityPrivateDoNotAccessOrElse SafeUrl.INNOCUOUS_STRING

/-- `goog.html.SafeUrl.ABOUT_BLANK`. -/
def SafeUrl.ABOUT_BLANK : SafeUrl :=
  SafeUrl.createSafeUrlSecurityPrivateDoNotAccessOrElse "about:blank"

/-! ## unwrap and its runtime type check -/

/-- The possible runtime shapes of a value passed to `unwrap`, classified by
the two checks `safeUrl instanceof goog.html.SafeUrl` and
`safeUrl.constructor === goog.html.SafeUrl`:
an exact instance, an instance of a subclass (instanceof holds, constructor
differs), a look-alike object of the same shape but different type, or any
other value. -/
inductive RuntimeValue where
  | exactSafeUrl : SafeUrl → RuntimeValue
  | subclassOfSafeUrl : String → RuntimeValue
  | lookAlike : String → RuntimeValue
  | otherValue : String → RuntimeValue
deriving DecidableEq

/-- `goog.html.SafeUrl.unwrap`.  The second component records whether
`goog.asserts.fail` was invoked (the diagnostic facility; modelled from the
spec as a non-fatal report in non-debug builds). -/
def SafeUrl.unwrap : RuntimeValue → String × Bool
  | .exactSafeUrl u => (u.privateDoNotAccessOrElseSafeUrlWrappedValue_, false)
  | .subclassOfSafeUrl _ => ("type_error:SafeUrl", true)
  | .lookAlike _ => ("type_error:SafeUrl", true)
  | .otherValue _ => ("type_error:SafeUrl", true)

/-! ## The generic safe-URL pattern
`goog.html.SAFE_URL_PATTERN_ = /^(?:(?:https?|mailto|ftp):|[^:/?#]*(?:[/?#]|$))/i` -/

/-- Matcher for the second alternative `[^:/?#]*(?:[/?#]|$)` anchored at the
start: succeeds iff the first occurrence of a character in `:/?#` is not `:`
(or no such character occurs). -/
def relativeOk : List Char → Bool
  | [] => true
  | c :: rest =>
    if c = '/' ∨ c = '?' ∨ c = '#' then true
    else if c = ':' then false
    else relativeOk rest

/-- `goog.html.SAFE_URL_PATTERN_.test(s)`. -/
def safeUrlPatternTest (s : String) : Bool :=
  caseInsensitiveStartsWith s "http:" || caseInsensitiveStartsWith s "https:" ||
  caseInsensitiveStartsWith s "mailto:" || caseInsensitiveStartsWith s "ftp:" ||
  relativeOk s.data

/-! ## The data-URL pattern and validator
`goog.html.DATA_URL_PATTERN_ = /^data:(.*);base64,[a-z0-9+\/]+=*$/i` -/

/-- Regex `.` in JS: any character except a line terminator. -/
def isDotChar (c : Char) : Bool :=
  !(c.toNat = 10 || c.toNat = 13 || c.toNat = 0x2028 || c.toNat = 0x2029)

/-- Regex class `[a-z0-9+\/]` under `/i`. -/
def isBase64Char (c : Char) : Bool :=
  isAsciiLetter c || isDigitChar c || c = '+' || c = '/'

/-- Matcher for the suffix `[a-z0-9+\/]+=*$` (classes are disjoint, so the
greedy scan is exact). -/
def b64TailOk (l : List Char) : Bool :=
  !(l.takeWhile isBase64Char).isEmpty && (l.dropWhile isBase64Char).all (fun c => c = '=')

/-- Backtracking matcher for `(.*);base64,[a-z0-9+\/]+=*$`:  at each
position, either the literal `;base64,` starts here and the tail matches, or
`.` consumes the current character and we continue. -/
def base64Split : List Char → Bool
  | [] => false
  | c :: rest =>
    (match ciStrip ";base64,".data (c :: rest) with
     | some t => b64TailOk t
     | none => false) || (isDotChar c && base64Split rest)

/-- `goog.html.DATA_URL_PATTERN_.match` viewed as a Boolean test. -/
def dataUrlTest (l : List Char) : Bool :=
  match ciStrip "data:".data l with
  | some r => base64Split r
  | none => false

/-- `dataUrl.replace(/(%0A|%0D)/g, '')`: the global replace scans left to
right, removing each (case-sensitive) occurrence and resuming after it. -/
def stripCrLf : List Char → List Char
  | '%' :: '0' :: 'A' :: rest => stripCrLf rest
  | '%' :: '0' :: 'D' :: rest => stripCrLf rest
  | c :: rest => c :: stripCrLf rest
  | [] => []

/-- `goog.html.SafeUrl.tryFromDataUrl`. -/
def SafeUrl.tryFromDataUrl (dataUrl : String) : Option SafeUrl :=
  let filteredDataUrl := String.mk (stripCrLf dataUrl.data)
  if dataUrlTest filteredDataUrl.data then
    some (SafeUrl.createSafeUrlSecurityPrivateDoNotAccessOrElse filteredDataUrl)
  else none

/-- `goog.html.SafeUrl.fromDataUrl` (`tryFromDataUrl(dataUrl) ||
INNOCUOUS_URL`; a SafeUrl object is always truthy). -/
def SafeUrl.fromDataUrl (dataUrl : String) : SafeUrl :=
  (SafeUrl.tryFromDataUrl dataUrl).getD SafeUrl.INNOCUOUS_URL

/-! ## Prefix-based scheme validators -/

/-- `goog.html.SafeUrl.fromTelUrl`. -/
def SafeUrl.fromTelUrl (telUrl : String) : SafeUrl :=
  SafeUrl.createSafeUrlSecurityPrivateDoNotAccessOrElse
    (if caseInsensitiveStartsWith telUrl "tel:" then telUrl else SafeUrl.INNOCUOUS_STRING)

/-- `goog.html.SafeUrl.fromSshUrl`. -/
def SafeUrl.fromSshUrl (sshUrl : String) : SafeUrl :=
  SafeUrl.createSafeUrlSecurityPrivateDoNotAccessOrElse
    (if caseInsensitiveStartsWith sshUrl "ssh://" then sshUrl else SafeUrl.INNOCUOUS_STRING)

/-- `goog.html.SafeUrl.fromFacebookMessengerUrl`. -/
def SafeUrl.fromFacebookMessengerUrl (facebookMessengerUrl : String) : SafeUrl :=
  SafeUrl.createSafeUrlSecurityPrivateDoNotAccessOrElse
    (if caseInsensitiveStartsWith facebookMessengerUrl "fb-messenger://share" then
      facebookMessengerUrl
    else SafeUrl.INNOCUOUS_STRING)

/-- `goog.html.SafeUrl.fromWhatsAppUrl`. -/
def SafeUrl.fromWhatsAppUrl (whatsAppUrl : String) : SafeUrl :=
  SafeUrl.createSafeUrlSecurityPrivateDoNotAccessOrElse
    (if caseInsensitiveStartsWith whatsAppUrl "whatsapp://send" then whatsAppUrl
    else SafeUrl.INNOCUOUS_STRING)

/-! ## decodeURIComponent
ECMA-262 `Decode` with an empty reserved set.  `none` models a thrown
`URIError`: a `%` not followed by two hex digits, or percent-escapes that do
not form a valid UTF-8 encoding of a code point (overlong forms, surrogates,
values above U+10FFFF, bad continuation bytes). -/

/-- Value of a UTF-8 continuation byte given by two hex digits, i.e. the low
six bits of a byte in `0x80..0xBF`; `none` if not a continuation byte. -/
def contVal (h lo : Char) : Option Nat :=
  match hexVal h, hexVal lo with
  | some a, some b =>
    let byte := 16 * a + b
    if 0x80 ≤ byte ∧ byte < 0xC0 then some (byte - 0x80) else none
  | _, _ => none

/-- `decodeURIComponent` on a character list. -/
def decodeUriComponentList : List Char → Option (List Char)
  | [] => some []
  | '%' :: h1 :: l1 :: rest =>
    match hexVal h1, hexVal l1 with
    | some a, some b =>
      let byte := 16 * a + b
      if byte < 0x80 then
        (decodeUriComponentList rest).map (fun t => Char.ofNat byte :: t)
      else if byte < 0xC0 then none
      else if byte < 0xE0 then
        match rest with
        | '%' :: h2 :: l2 :: rest2 =>
          match contVal h2 l2 with
          | some b2 =>
            let cp := (byte - 0xC0) * 64 + b2
            if 0x80 ≤ cp then
              (decodeUriComponentList rest2).map (fun t => Char.ofNat cp :: t)
            else none
          | none => none
        | _ => none
      else if byte < 0xF0 then
        match rest with
        | '%' :: h2 :: l2 :: '%' :: h3 :: l3 :: rest2 =>
          match contVal h2 l2, contVal h3 l3 with
          | some b2, some b3 =>
            let cp := (byte - 0xE0) * 4096 + b2 * 64 + b3
            if 0x800 ≤ cp ∧ ¬(0xD800 ≤ cp ∧ cp ≤ 0xDFFF) then
              (decodeUriComponentList rest2).map (fun t => Char.ofNat cp :: t)
            else none
          | _, _ => none
        | _ => none
      else if byte < 0xF8 then
        match rest with
        | '%' :: h2 :: l2 :: '%' :: h3 :: l3 :: '%' :: h4 :: l4 :: rest2 =>
          match contVal h2 l2, contVal h3 l3, contVal h4 l4 with
          | some b2, some b3, some b4 =>
            let cp := (byte - 0xF0) * 262144 + b2 * 4096 + b3 * 64 + b4
            if 0x10000 ≤ cp ∧ cp ≤ 0x10FFFF then
              (decodeUriComponentList rest2).map (fun t => Char.ofNat cp :: t)
            else none
          | _, _, _ => none
        | _ => none
      else none
    | _, _ => none
  | ['%'] => none
  | ['%', _] => none
  | c :: rest => (decodeUriComponentList rest).map (fun t => c :: t)

/-! ## The sip validator
`goog.html.SIP_URL_PATTERN_` is
`^sip[s]?:[+a-z0-9_.!$%&'*\/=^`{|}~-]+@([a-z0-9-]+\.)+[a-z0-9]{2,63}$` with
`/i`. -/

/-- Regex class of the local part (apostrophe, backtick and braces written
via their code points). -/
def sipLocalChar (c : Char) : Bool :=
  isAsciiLetter c || isDigitChar c || c = '+' || c = '_' || c = '.' || c = '!' ||
  c = '$' || c = '%' || c = '&' || c = Char.ofNat 39 || c = '*' || c = '/' ||
  c = '=' || c = '^' || c = Char.ofNat 96 || c = Char.ofNat 123 || c = '|' ||
  c = Char.ofNat 125 || c = '~' || c = '-'

/-- Regex class `[a-z0-9-]` under `/i` (domain label). -/
def sipLabelChar (c : Char) : Bool :=
  isAsciiLetter c || isDigitChar c || c = '-'

/-- Split a character list on `.`, keeping empty segments. -/
def splitOnDot : List Char → List (List Char)
  | [] => [[]]
  | '.' :: rest => [] :: splitOnDot rest
  | c :: rest =>
    match splitOnDot rest with
    | h :: t => (c :: h) :: t
    | [] => [[c]]

/-- Matcher for `([a-z0-9-]+\.)+[a-z0-9]{2,63}$`.  Neither class matches
`.`, so the regex matches iff splitting on dots yields at least two
segments, all but the last being nonempty label-class runs, and the last
being 2–63 characters of `[a-z0-9]`. -/
def sipDomainOk (dom : List Char) : Bool :=
  let parts := splitOnDot dom
  match parts.getLast? with
  | none => false
  | some tld =>
    2 ≤ parts.length &&
    parts.dropLast.all (fun lab => !lab.isEmpty && lab.all sipLabelChar) &&
    2 ≤ tld.length && tld.length ≤ 63 && tld.all (fun c => isAsciiLetter c || isDigitChar c)

/-- Matcher for `[+...]+@([a-z0-9-]+\.)+[a-z0-9]{2,63}$`.  The local class
and domain classes both exclude `@`, so the `@` consumed by the regex is
necessarily the first one. -/
def sipLocalDomainOk (t : List Char) : Bool :=
  let lp := t.takeWhile (fun c => c ≠ '@')
  match t.dropWhile (fun c => c ≠ '@') with
  | '@' :: dom => !lp.isEmpty && lp.all sipLocalChar && sipDomainOk dom
  | _ => false

/-- `goog.html.SIP_URL_PATTERN_.test`.  `sip`, an optional `s` and the `:`
are matched deterministically because `s` and `:` differ. -/
def sipUrlPatternTest (l : List Char) : Bool :=
  match ciStrip "sip".data l with
  | none => false
  | some r =>
    match r with
    | ':' :: t => sipLocalDomainOk t
    | c :: ':' :: t => lowerAscii c = 's' && sipLocalDomainOk t
    | _ => false

/-- `goog.html.SafeUrl.fromSipUrl`.  The call
`decodeURIComponent(sipUrl)` is not guarded by try/catch, so a decoding
failure propagates as a thrown `URIError` (`none`). -/
def SafeUrl.fromSipUrl (sipUrl : String) : Option SafeUrl :=
  match decodeUriComponentList sipUrl.data with
  | none => none
  | some decoded =>
    some (SafeUrl.createSafeUrlSecurityPrivateDoNotAccessOrElse
      (if sipUrlPatternTest decoded then sipUrl else SafeUrl.INNOCUOUS_STRING))

/-! ## The sms validator -/

/-- `var hash = smsUrl.indexOf('#'); if (hash > 0) smsUrl = smsUrl.substring(0, hash);`
Note the strict `> 0`: a leading `#` is kept. -/
def stripHash (l : List Char) : List Char :=
  match l.findIdx? (fun c => c = '#') with
  | some i => if 0 < i then l.take i else l
  | none => l

/-- Number of matches of `smsUrl.match(/[?&]body=/gi)`: global scan for
case-insensitive occurrences of `[?&]body=`, resuming after each match. -/
def countBodyParams : List Char → Nat
  | q :: b :: o :: d :: y :: e :: rest =>
    if (q = '?' ∨ q = '&') ∧ lowerAscii b = 'b' ∧ lowerAscii o = 'o' ∧
        lowerAscii d = 'd' ∧ lowerAscii y = 'y' ∧ e = '=' then
      1 + countBodyParams rest
    else countBodyParams (b :: o :: d :: y :: e :: rest)
  | _ :: rest => countBodyParams rest
  | [] => 0

/-- First match of `smsUrl.match(/[?&]body=([^&]*)/)` (no `/i` flag:
case-sensitive), returning capture group 1; `none` when the regex does not
match, in which case the source indexes into `null` and throws. -/
def findBodyValueCS : List Char → Option (List Char)
  | [] => none
  | c :: rest =>
    if c = '?' ∨ c = '&' then
      match csStrip "body=".data rest with
      | some tail => some (tail.takeWhile (fun x => x ≠ '&'))
      | none => findBodyValueCS rest
    else findBodyValueCS rest

/-- Regex class `[a-z0-9\-_.~]` under `/i`. -/
def smsUnreservedChar (c : Char) : Bool :=
  isAsciiLetter c || isDigitChar c || c = '-' || c = '_' || c = '.' || c = '~'

/-- Matcher for `^(?:[a-z0-9\-_.~]|%[0-9a-f]{2})+$/i` on a nonempty list
(`%` is not in the unreserved class, so the parse is deterministic). -/
def smsBodyCharsOk : List Char → Bool
  | [] => true
  | '%' :: h :: lo :: rest => (hexVal h).isSome && (hexVal lo).isSome && smsBodyCharsOk rest
  | '%' :: _ => false
  | c :: rest => smsUnreservedChar c && smsBodyCharsOk rest

/-- `goog.html.SafeUrl.isSmsUrlBodyValid_`.  `none` models the `TypeError`
thrown when the case-insensitive count finds exactly one `body=` parameter
but the case-sensitive extraction regex finds none (`.match(...)` is `null`
and `[1]` throws).  The `decodeURIComponent(bodyValue)` call is inside
try/catch, so its failure yields `some false`. -/
def SafeUrl.isSmsUrlBodyValid_ (smsUrl : String) : Option Bool :=
  let l := stripHash smsUrl.data
  let n := countBodyParams l
  if n = 0 then some true
  else if 1 < n then some false
  else
    match findBodyValueCS l with
    | none => none
    | some bodyValue =>
      if bodyValue.isEmpty then some true
      else
        match decodeUriComponentList bodyValue with
        | none => some false
        | some _ => some (smsBodyCharsOk bodyValue)

/-- `goog.html.SafeUrl.fromSmsUrl`.  The `||` in the source short-circuits,
so the body check only runs when the prefix test passed; `none` propagates
the `TypeError` from `isSmsUrlBodyValid_`. -/
def SafeUrl.fromSmsUrl (smsUrl : String) : Option SafeUrl :=
  if caseInsensitiveStartsWith smsUrl "sms:" then
    match SafeUrl.isSmsUrlBodyValid_ smsUrl with
    | none => none
    | some true => some (SafeUrl.createSafeUrlSecurityPrivateDoNotAccessOrElse smsUrl)
    | some false =>
      some (SafeUrl.createSafeUrlSecurityPrivateDoNotAccessOrElse SafeUrl.INNOCUOUS_STRING)
  else some (SafeUrl.createSafeUrlSecurityPrivateDoNotAccessOrElse SafeUrl.INNOCUOUS_STRING)

/-! ## Browser-extension URL sanitizers -/

/-- Modelled from the spec: `goog.string.Const` (required by safeurl.js but
not under src/) — a compile-time-constant string wrapper, consumed only
through its unwrap operation, which returns the wrapped string. -/
structure GoogStringConst where
  constStringValue : String
deriving DecidableEq

/-- Modelled from the spec: `goog.string.Const.unwrap`. -/
def GoogStringConst.unwrapConst (c : GoogStringConst) : String :=
  c.constStringValue

/-- The `extensionId` argument: a single `goog.string.Const` or an array of
them. -/
inductive ExtensionId where
  | single : GoogStringConst → ExtensionId
  | many : List GoogStringConst → ExtensionId
deriving DecidableEq

/-- The `acceptedExtensionIds` array computed in `sanitizeExtensionUrl_`. -/
def acceptedExtensionIds : ExtensionId → List String
  | .single c => [c.unwrapConst]
  | .many l => l.map GoogStringConst.unwrapConst

/-- `scheme.exec(url)` for a scheme regex `^<literal>:\/\/([^\/]+)\//`
(case-sensitive, as in the source): strip the literal prefix, then the
capture group is the maximal nonempty run without `/`, which must be
followed by a `/`. -/
def extExtract (schemeData l : List Char) : Option (List Char) :=
  match csStrip schemeData l with
  | none => none
  | some rest =>
    let capture := rest.takeWhile (fun c => c ≠ '/')
    if capture.isEmpty then none
    else if (rest.dropWhile (fun c => c ≠ '/')).isEmpty then none
    else some capture

/-- `goog.html.SafeUrl.sanitizeExtensionUrl_`, parameterized by the literal
scheme part of the regex (e.g. `chrome-extension://`). -/
def SafeUrl.sanitizeExtensionUrl_ (schemeData : List Char) (url : String)
    (extensionId : ExtensionId) : SafeUrl :=
  SafeUrl.createSafeUrlSecurityPrivateDoNotAccessOrElse
    (match extExtract schemeData url.data with
     | none => SafeUrl.INNOCUOUS_STRING
     | some extractedExtensionId =>
       if (acceptedExtensionIds extensionId).contains (String.mk extractedExtensionId) then url
       else SafeUrl.INNOCUOUS_STRING)

/-- `goog.html.SafeUrl.sanitizeChromeExtensionUrl`
(`/^chrome-extension:\/\/([^\/]+)\//`). -/
def SafeUrl.sanitizeChromeExtensionUrl (url : String) (extensionId : ExtensionId) : SafeUrl :=
  SafeUrl.sanitizeExtensionUrl_ "chrome-extension://".data url extensionId

/-- `goog.html.SafeUrl.sanitizeFirefoxExtensionUrl`
(`/^moz-extension:\/\/([^\/]+)\//`). -/
def SafeUrl.sanitizeFirefoxExtensionUrl (url : String) (extensionId : ExtensionId) : SafeUrl :=
  SafeUrl.sanitizeExtensionUrl_ "moz-extension://".data url extensionId

/-- `goog.html.SafeUrl.sanitizeEdgeExtensionUrl`
(`/^ms-browser-extension:\/\/([^\/]+)\//`). -/
def SafeUrl.sanitizeEdgeExtensionUrl (url : String) (extensionId : ExtensionId) : SafeUrl :=
  SafeUrl.sanitizeExtensionUrl_ "ms-browser-extension://".data url extensionId

/-! ## Generic sanitizer -/

/-- The runtime shapes of the `url` argument of `trySanitize`, `sanitize`
and `sanitizeAssertUnchanged`: an actual SafeUrl instance; another object
with the `implementsGoogStringTypedString` capability whose
`getTypedStringValue()` returns `s`; or any other value, coerced by
`String(url)` to `s`. -/
inductive UrlInput where
  | safe : SafeUrl → UrlInput
  | typed : String → UrlInput
  | str : String → UrlInput
deriving DecidableEq

/-- The string-validation tail of `goog.html.SafeUrl.trySanitize`. -/
def trySanitizeString (url : String) : Option SafeUrl :=
  if safeUrlPatternTest url then
    some (SafeUrl.createSafeUrlSecurityPrivateDoNotAccessOrElse url)
  else SafeUrl.tryFromDataUrl url

/-- `goog.html.SafeUrl.trySanitize`. -/
def SafeUrl.trySanitize : UrlInput → Option SafeUrl
  | .safe u => some u
  | .typed s => trySanitizeString s
  | .str s => trySanitizeString s

/-- `goog.html.SafeUrl.sanitize` (`trySanitize(url) || INNOCUOUS_URL`). -/
def SafeUrl.sanitize (url : UrlInput) : SafeUrl :=
  (SafeUrl.trySanitize url).getD SafeUrl.INNOCUOUS_URL

/-- The assertion tail of `sanitizeAssertUnchanged`: wrap the url if it
matches the generic pattern, else report an assertion failure (second
component `true`) and wrap the innocuous string.  `goog.asserts.assert` is
modelled from the spec as a non-aborting diagnostic report. -/
def sanitizeAssertTail (url : String) : SafeUrl × Bool :=
  if safeUrlPatternTest url then
    (SafeUrl.createSafeUrlSecurityPrivateDoNotAccessOrElse url, false)
  else
    (SafeUrl.createSafeUrlSecurityPrivateDoNotAccessOrElse SafeUrl.INNOCUOUS_STRING, true)

/-- The string branch of `sanitizeAssertUnchanged`. -/
def sanitizeAssertUnchangedString (url : String) (optAllowDataUrl : Bool) : SafeUrl × Bool :=
  if optAllowDataUrl && caseInsensitiveStartsWith url "data:" then
    let safeUrl := SafeUrl.fromDataUrl url
    if safeUrl.getTypedStringValue = url then (safeUrl, false)
    else sanitizeAssertTail url
  else sanitizeAssertTail url

/-- `goog.html.SafeUrl.sanitizeAssertUnchanged`.  The second component
records whether an assertion failure was reported. -/
def SafeUrl.sanitizeAssertUnchanged : UrlInput → Bool → SafeUrl × Bool
  | .safe u, _ => (u, false)
  | .typed s, allow => sanitizeAssertUnchangedString s allow
  | .str s, allow => sanitizeAssertUnchangedString s allow

/-! ## goog.structs.StringSet (src/unnamed/part_000)

The backing store `this.elements_` is a plain JS object used as a string-key
table.  We model its own enumerable keys as a duplicate-free list; the JS
`in` operator additionally sees the (non-enumerable) properties inherited
from `Object.prototype`.  JS enumeration order moves integer-like keys
first, so theorems below only use key membership and distinctness, never
the order of `values()`. -/

/-- The property names of the standard `Object.prototype` (including the
Annex B accessors), all visible to `key in obj` on a plain object. -/
def objectPrototypeProps : List String :=
  ["constructor", "hasOwnProperty", "isPrototypeOf", "propertyIsEnumerable",
   "toLocaleString", "toString", "valueOf", "__defineGetter__",
   "__defineSetter__", "__lookupGetter__", "__lookupSetter__", "__proto__"]

/-- A plain JS object used as a table: its own property keys. -/
structure JSObj where
  ownKeys : List String
deriving DecidableEq

/-- `obj[k] = null`: adds `k` as an own key if not present. -/
def JSObj.assign (o : JSObj) (k : String) : JSObj :=
  if k ∈ o.ownKeys then o else ⟨o.ownKeys ++ [k]⟩

/-- `k in obj`: own keys or anything inherited from `Object.prototype`. -/
def JSObj.hasProp (o : JSObj) (k : String) : Bool :=
  o.ownKeys.contains k || objectPrototypeProps.contains k

/-- `goog.structs.StringSet.encode_` (restricted to string elements, as in
the claim): prefix a space iff the element is an `Object.prototype`
property name (`element in EMPTY_OBJECT_`) or its first code unit is 32. -/
def StringSet.encode_ (element : String) : String :=
  if element ∈ objectPrototypeProps ∨ element.data.head? = some ' ' then
    " " ++ element
  else element

/-- `goog.structs.StringSet.decode_`: drop a leading space. -/
def StringSet.decode_ (key : String) : String :=
  if key.data.head? = some ' ' then String.mk key.data.tail else key

/-- `goog.structs.StringSet`. -/
structure StringSet where
  elements_ : JSObj
deriving DecidableEq

/-- `new goog.structs.StringSet()` (no initial elements). -/
def StringSet.emptySet : StringSet := ⟨⟨[]⟩⟩

/-- `goog.structs.StringSet.prototype.add`. -/
def StringSet.add (s : StringSet) (element : String) : StringSet :=
  ⟨s.elements_.assign (StringSet.encode_ element)⟩

/-- `goog.structs.StringSet.prototype.contains`
(`encode_(element) in this.elements_`). -/
def StringSet.containsElem (s : StringSet) (element : String) : Bool :=
  s.elements_.hasProp (StringSet.encode_ element)

/-- `goog.structs.StringSet.prototype.has` (delegates to `contains`). -/
def StringSet.has (s : StringSet) (element : String) : Bool :=
  s.containsElem element

/-- `goog.structs.StringSet.prototype.values`
(`Object.keys(this.elements_).map(decode_)`). -/
def StringSet.values (s : StringSet) : List String :=
  s.elements_.ownKeys.map StringSet.decode_

/-- A set built by `add`-ing each element of a list in order. -/
def StringSet.ofList (l : List String) : StringSet :=
  l.foldl StringSet.add StringSet.emptySet

/-! ## Declarative (spec-side) characterizations of the regex matchers -/

/-- Declarative reading of the alternative `[^:/?#]*(?:[/?#]|$)` of the
generic safe-URL grammar: some prefix free of `:`/`/`/`?`/`#` is followed by
the end of the string or by one of `/`, `?`, `#`. -/
def NoEarlyColon (l : List Char) : Prop :=
  ∃ p r, l = p ++ r ∧ (∀ c ∈ p, c ≠ ':' ∧ c ≠ '/' ∧ c ≠ '?' ∧ c ≠ '#') ∧
    (r = [] ∨ ∃ c t, r = c :: t ∧ (c = '/' ∨ c = '?' ∨ c = '#'))

/-- Declarative reading of the generic safe-URL grammar
`^(?:(?:https?|mailto|ftp):|[^:/?#]*(?:[/?#]|$))/i`. -/
def SafeUrlPatternSpec (s : String) : Prop :=
  caseInsensitiveStartsWith s "http:" = true ∨
  caseInsensitiveStartsWith s "https:" = true ∨
  caseInsensitiveStartsWith s "mailto:" = true ∨
  caseInsensitiveStartsWith s "ftp:" = true ∨
  NoEarlyColon s.data

/-- Case-insensitive equality of character lists. -/
def CIEqL (a b : List Char) : Prop :=
  a.map lowerAscii = b.map lowerAscii

/-- Declarative reading of `^data:(.*);base64,[a-z0-9+\/]+=*$/i`: the string
decomposes as `data:` (case-insensitive), an arbitrary MIME capture free of
line terminators, `;base64,` (case-insensitive), a nonempty base64-character
run, and trailing `=` signs.  The capture `m` is unconstrained beyond `.`,
reflecting that no MIME allow-list check happens here. -/
def DataUrlSpec (l : List Char) : Prop :=
  ∃ d m q b e, l = d ++ (m ++ (q ++ (b ++ e))) ∧
    CIEqL d "data:".data ∧ (∀ c ∈ m, isDotChar c = true) ∧
    CIEqL q ";base64,".data ∧ b ≠ [] ∧
    (∀ c ∈ b, isBase64Char c = true) ∧ (∀ c ∈ e, c = '=')

/-- Declarative reading of a match of `^<scheme>:\/\/([^\/]+)\//` with
captured identifier `id`: the url is the literal scheme part, then the
nonempty slash-free identifier, then a `/`, then anything. -/
def ExtMatches (schemeData : List Char) (url : String) (id : List Char) : Prop :=
  id ≠ [] ∧ (∀ c ∈ id, c ≠ '/') ∧ ∃ rest, url.data = schemeData ++ (id ++ '/' :: rest)

/-- First-occurrence deduplication of a list (the abstract content of a JS
object key table filled left to right). -/
def firstOccurrences (l : List String) : List String :=
  l.foldl (fun acc s => if s ∈ acc then acc else acc ++ [s]) []

/-! ## Lemmas: literal strips -/

theorem csStrip_eq_some_iff (pat : List Char) :
    ∀ l r : List Char, csStrip pat l = some r ↔ l = pat ++ r := by
  induction pat with
  | nil => intro l r; simp [csStrip]
  | cons p ps ih =>
    intro l r
    cases l with
    | nil => simp [csStrip]
    | cons c cs =>
      by_cases h : c = p
      · subst h; simp [csStrip, ih]
      · simp [csStrip, h]

theorem CIEqL_nil_iff (d : List Char) : CIEqL d [] ↔ d = [] := by
  simp [CIEqL]

theorem CIEqL_cons_iff (d : List Char) (p : Char) (ps : List Char) :
    CIEqL d (p :: ps) ↔ ∃ c cs, d = c :: cs ∧ lowerAscii c = lowerAscii p ∧ CIEqL cs ps := by
  cases d with
  | nil => simp [CIEqL]
  | cons c cs =>
    constructor
    · intro h
      have h' : lowerAscii c = lowerAscii p ∧ CIEqL cs ps := by
        simpa [CIEqL] using h
      exact ⟨c, cs, rfl, h'.1, h'.2⟩
    · rintro ⟨c2, cs2, heq, h1, h2⟩
      injection heq with e1 e2
      subst e1
      subst e2
      simpa [CIEqL] using And.intro h1 h2

theorem ciStrip_eq_some_iff (pat : List Char) :
    ∀ l r : List Char, ciStrip pat l = some r ↔ ∃ d, l = d ++ r ∧ CIEqL d pat := by
  induction pat with
  | nil =>
    intro l r
    simp only [ciStrip, Option.some.injEq]
    constructor
    · rintro rfl
      exact ⟨[], by simp, (CIEqL_nil_iff []).2 rfl⟩
    · rintro ⟨d, rfl, hci⟩
      obtain rfl := (CIEqL_nil_iff d).1 hci
      simp
  | cons p ps ih =>
    intro l r
    cases l with
    | nil =>
      constructor
      · intro h
        simp [ciStrip] at h
      · rintro ⟨d, hd, hci⟩
        rcases (CIEqL_cons_iff d p ps).1 hci with ⟨c, cs, rfl, _, _⟩
        simp at hd
    | cons c cs =>
      by_cases h : lowerAscii c = lowerAscii p
      · rw [show ciStrip (p :: ps) (c :: cs) = ciStrip ps cs from by simp [ciStrip, h]]
        rw [ih cs r]
        constructor
        · rintro ⟨d, rfl, hci⟩
          exact ⟨c :: d, by simp, (CIEqL_cons_iff _ p ps).2 ⟨c, d, rfl, h, hci⟩⟩
        · rintro ⟨d, hd, hci⟩
          rcases (CIEqL_cons_iff d p ps).1 hci with ⟨c2, cs2, rfl, hlow, hci2⟩
          rw [List.cons_append] at hd
          injection hd with e1 e2
          subst e1
          exact ⟨cs2, e2, hci2⟩
      · constructor
        · intro hx
          rw [show ciStrip (p :: ps) (c :: cs) = none from by simp [ciStrip, h]] at hx
          cases hx
        · rintro ⟨d, hd, hci⟩
          rcases (CIEqL_cons_iff d p ps).1 hci with ⟨c2, cs2, rfl, hlow, _⟩
          rw [List.cons_append] at hd
          injection hd with e1 _
          subst e1
          exact absurd hlow h

/-! ## Lemmas: the generic safe-URL pattern -/

theorem relativeOk_iff_noEarlyColon : ∀ l : List Char, relativeOk l = true ↔ NoEarlyColon l := by
  intro l
  induction l with
  | nil =>
    simp only [relativeOk, true_iff]
    exact ⟨[], [], by simp, by simp, Or.inl rfl⟩
  | cons c rest ih =>
    by_cases h1 : c = '/' ∨ c = '?' ∨ c = '#'
    · simp only [relativeOk, if_pos h1, true_iff]
      exact ⟨[], c :: rest, by simp, by simp, Or.inr ⟨c, rest, rfl, h1⟩⟩
    · by_cases h2 : c = ':'
      · subst h2
        rw [show relativeOk (':' :: rest) = false from by simp [relativeOk, h1]]
        simp only [Bool.false_eq_true, false_iff]
        rintro ⟨p, r, heq, hp, hr⟩
        cases p with
        | nil =>
          rw [List.nil_append] at heq
          subst heq
          rcases hr with hr0 | ⟨c2, t, hr2, hc2⟩
          · cases hr0
          · injection hr2 with e1 _
            subst e1
            exact h1 hc2
        | cons p0 ptl =>
          rw [List.cons_append] at heq
          injection heq with e1 _
          exact (hp p0 (by simp)).1 e1.symm
      · push_neg at h1
        rw [show relativeOk (c :: rest) = relativeOk rest from by
          simp [relativeOk, h2, h1.1, h1.2.1, h1.2.2]]
        rw [ih]
        constructor
        · rintro ⟨p, r, rfl, hp, hr⟩
          refine ⟨c :: p, r, rfl, ?_, hr⟩
          intro x hx
          rcases List.mem_cons.1 hx with rfl | hx2
          · exact ⟨h2, h1.1, h1.2.1, h1.2.2⟩
          · exact hp x hx2
        · rintro ⟨p, r, heq, hp, hr⟩
          cases p with
          | nil =>
            rw [List.nil_append] at heq
            subst heq
            rcases hr with hr0 | ⟨c2, t, hr2, hc2⟩
            · cases hr0
            · injection hr2 with e1 _
              subst e1
              rcases hc2 with h | h | h
              · exact absurd h h1.1
              · exact absurd h h1.2.1
              · exact absurd h h1.2.2
          | cons p0 ptl =>
            rw [List.cons_append] at heq
            injection heq with e1 e2
            exact ⟨ptl, r, e2, fun x hx => hp x (by simp [hx]), hr⟩

instance : DecidablePred NoEarlyColon := fun l =>
  decidable_of_iff _ (relativeOk_iff_noEarlyColon l)

theorem safeUrlPatternTest_iff (s : String) :
    safeUrlPatternTest s = true ↔ SafeUrlPatternSpec s := by
  simp [safeUrlPatternTest, SafeUrlPatternSpec, relativeOk_iff_noEarlyColon, or_assoc]

instance : DecidablePred SafeUrlPatternSpec := fun s =>
  decidable_of_iff _ (safeUrlPatternTest_iff s)

/-! ## Lemmas: the data-URL pattern -/

theorem CIEqL_length (a b : List Char) (h : CIEqL a b) : a.length = b.length := by
  have := congrArg List.length h
  simpa using this

theorem takeWhile_append_of_all (p : Char → Bool) (b e : List Char)
    (hb : ∀ c ∈ b, p c = true) : (b ++ e).takeWhile p = b ++ e.takeWhile p := by
  induction b with
  | nil => simp
  | cons c cs ih =>
    have hx := hb c (by simp)
    simp [List.takeWhile_cons, hx, ih (fun x hx2 => hb x (by simp [hx2]))]

theorem dropWhile_append_of_all (p : Char → Bool) (b e : List Char)
    (hb : ∀ c ∈ b, p c = true) : (b ++ e).dropWhile p = e.dropWhile p := by
  induction b with
  | nil => simp
  | cons c cs ih =>
    have hx := hb c (by simp)
    simp [List.dropWhile_cons, hx, ih (fun x hx2 => hb x (by simp [hx2]))]

theorem b64TailOk_iff (l : List Char) :
    b64TailOk l = true ↔
      ∃ b e, l = b ++ e ∧ b ≠ [] ∧ (∀ c ∈ b, isBase64Char c = true) ∧ (∀ c ∈ e, c = '=') := by
  constructor
  · intro h
    simp only [b64TailOk, Bool.and_eq_true, Bool.not_eq_true', List.isEmpty_eq_false,
      List.all_eq_true, decide_eq_true_eq] at h
    exact ⟨l.takeWhile isBase64Char, l.dropWhile isBase64Char,
      (List.takeWhile_append_dropWhile _ _).symm, h.1,
      fun c hc => List.mem_takeWhile_imp hc, h.2⟩
  · rintro ⟨b, e, rfl, hb, hball, heall⟩
    have heq : isBase64Char '=' = false := by decide
    have ht : (b ++ e).takeWhile isBase64Char = b := by
      rw [takeWhile_append_of_all _ _ _ hball]
      cases e with
      | nil => simp
      | cons c t =>
        obtain rfl := heall c (by simp)
        simp [List.takeWhile_cons, heq]
    have hd : (b ++ e).dropWhile isBase64Char = e := by
      rw [dropWhile_append_of_all _ _ _ hball]
      cases e with
      | nil => simp
      | cons c t =>
        obtain rfl := heall c (by simp)
        simp [List.dropWhile_cons, heq]
    simp only [b64TailOk, ht, hd, Bool.and_eq_true, Bool.not_eq_true', List.isEmpty_eq_false,
      List.all_eq_true, decide_eq_true_eq]
    exact ⟨hb, heall⟩

theorem ciStripTail_iff (l : List Char) :
    (match ciStrip ";base64,".data l with
     | some t => b64TailOk t
     | none => false) = true ↔
    ∃ q b e, l = q ++ (b ++ e) ∧ CIEqL q ";base64,".data ∧ b ≠ [] ∧
      (∀ c ∈ b, isBase64Char c = true) ∧ (∀ c ∈ e, c = '=') := by
  cases hcs : ciStrip ";base64,".data l with
  | none =>
    simp only [Bool.false_eq_true, false_iff]
    rintro ⟨q, b, e, rfl, hq, _⟩
    have hsome : ciStrip ";base64,".data (q ++ (b ++ e)) = some (b ++ e) :=
      (ciStrip_eq_some_iff _ _ _).2 ⟨q, rfl, hq⟩
    rw [hcs] at hsome
    cases hsome
  | some t =>
    rcases (ciStrip_eq_some_iff _ _ _).1 hcs with ⟨q0, rfl, hq0⟩
    rw [b64TailOk_iff t]
    constructor
    · rintro ⟨b, e, rfl, h1, h2, h3⟩
      exact ⟨q0, b, e, rfl, hq0, h1, h2, h3⟩
    · rintro ⟨q, b, e, heq, hq, h1, h2, h3⟩
      have hlen : q0.length = q.length := by
        rw [CIEqL_length _ _ hq0, CIEqL_length _ _ hq]
      obtain ⟨rfl, rfl⟩ := List.append_inj heq hlen
      exact ⟨b, e, rfl, h1, h2, h3⟩

theorem base64Split_iff : ∀ l : List Char, base64Split l = true ↔
    ∃ m t, l = m ++ t ∧ (∀ c ∈ m, isDotChar c = true) ∧
      (∃ q b e, t = q ++ (b ++ e) ∧ CIEqL q ";base64,".data ∧ b ≠ [] ∧
        (∀ c ∈ b, isBase64Char c = true) ∧ (∀ c ∈ e, c = '=')) := by
  intro l
  induction l with
  | nil =>
    simp only [base64Split, Bool.false_eq_true, false_iff]
    rintro ⟨m, t, heq, hm, q, b, e, rfl, hq, hb, _, _⟩
    obtain ⟨hm0, h0⟩ := List.append_eq_nil.1 heq.symm
    obtain ⟨hq0, _⟩ := List.append_eq_nil.1 h0
    subst hq0
    exact absurd (CIEqL_length _ _ hq) (by decide)
  | cons c rest ih =>
    have hunfold : base64Split (c :: rest) =
        ((match ciStrip ";base64,".data (c :: rest) with
          | some t => b64TailOk t
          | none => false) || (isDotChar c && base64Split rest)) := rfl
    rw [hunfold, Bool.or_eq_true, Bool.and_eq_true, ciStripTail_iff, ih]
    constructor
    · rintro (⟨q, b, e, heq, hrest⟩ | ⟨hdot, m, t, heq, hm, htail⟩)
      · exact ⟨[], c :: rest, rfl, by simp, q, b, e, heq, hrest⟩
      · refine ⟨c :: m, t, by rw [heq, List.cons_append], ?_, htail⟩
        intro x hx
        rcases List.mem_cons.1 hx with rfl | hx2
        · exact hdot
        · exact hm x hx2
    · rintro ⟨m, t, heq, hm, htail⟩
      cases m with
      | nil =>
        rw [List.nil_append] at heq
        subst heq
        exact Or.inl htail
      | cons m0 mtl =>
        rw [List.cons_append] at heq
        injection heq with e1 e2
        subst e1
        exact Or.inr ⟨hm c (List.mem_cons_self c mtl), mtl, t, e2,
          fun x hx => hm x (List.mem_cons_of_mem c hx), htail⟩

theorem dataUrlTest_iff (l : List Char) : dataUrlTest l = true ↔ DataUrlSpec l := by
  unfold dataUrlTest DataUrlSpec
  cases hcs : ciStrip "data:".data l with
  | none =>
    simp only [Bool.false_eq_true, false_iff]
    rintro ⟨d, m, q, b, e, rfl, hd, _⟩
    have hsome : ciStrip "data:".data (d ++ (m ++ (q ++ (b ++ e)))) = some (m ++ (q ++ (b ++ e))) :=
      (ciStrip_eq_some_iff _ _ _).2 ⟨d, rfl, hd⟩
    rw [hcs] at hsome
    cases hsome
  | some r =>
    rcases (ciStrip_eq_some_iff _ _ _).1 hcs with ⟨d0, rfl, hd0⟩
    rw [base64Split_iff r]
    constructor
    · rintro ⟨m, t, rfl, hm, q, b, e, rfl, hq, hb, hball, heall⟩
      exact ⟨d0, m, q, b, e, by simp, hd0, hm, hq, hb, hball, heall⟩
    · rintro ⟨d, m, q, b, e, heq, hd, hm, hq, hb, hball, heall⟩
      have hlen : d0.length = d.length := by
        rw [CIEqL_length _ _ hd0, CIEqL_length _ _ hd]
      obtain ⟨rfl, rfl⟩ := List.append_inj heq hlen
      exact ⟨m, q ++ (b ++ e), rfl, hm, q, b, e, rfl, hq, hb, hball, heall⟩

instance : DecidablePred DataUrlSpec := fun l =>
  decidable_of_iff _ (dataUrlTest_iff l)

/-! ## Lemmas: the extension-URL pattern -/

theorem dropWhile_head_not (p : Char → Bool) :
    ∀ (l : List Char) (c : Char) (t : List Char), l.dropWhile p = c :: t → p c = false := by
  intro l
  induction l with
  | nil => intro c t h; cases h
  | cons x xs ih =>
    intro c t h
    rw [List.dropWhile_cons] at h
    by_cases hx : p x = true
    · rw [if_pos hx] at h
      exact ih c t h
    · rw [if_neg hx] at h
      injection h with e1 _
      subst e1
      exact Bool.eq_false_iff.2 hx

theorem extExtract_eq_some_iff (schemeData l id : List Char) :
    extExtract schemeData l = some id ↔
      id ≠ [] ∧ (∀ c ∈ id, c ≠ '/') ∧ ∃ rest, l = schemeData ++ (id ++ '/' :: rest) := by
  cases hcs : csStrip schemeData l with
  | none =>
    simp only [extExtract, hcs, false_iff]
    constructor
    · intro h; cases h
    · rintro ⟨_, _, rest, rfl⟩
      have hsome : csStrip schemeData (schemeData ++ (id ++ '/' :: rest)) =
          some (id ++ '/' :: rest) := (csStrip_eq_some_iff _ _ _).2 rfl
      rw [hcs] at hsome
      cases hsome
  | some r =>
    have hl : l = schemeData ++ r := (csStrip_eq_some_iff _ _ _).1 hcs
    subst hl
    simp only [extExtract, hcs]
    constructor
    · intro h
      by_cases h1 : (r.takeWhile (fun c => c ≠ '/')).isEmpty
      · rw [if_pos h1] at h; cases h
      · rw [if_neg h1] at h
        by_cases h2 : (r.dropWhile (fun c => c ≠ '/')).isEmpty
        · rw [if_pos h2] at h; cases h
        · rw [if_neg h2] at h
          injection h with hid
          subst hid
          refine ⟨fun hc => h1 (by rw [hc]; rfl), ?_, ?_⟩
          · intro c hc
            have := List.mem_takeWhile_imp hc
            simpa using this
          · cases hdw : r.dropWhile (fun c => c ≠ '/') with
            | nil => rw [hdw] at h2; simp at h2
            | cons c0 t0 =>
              have hc0 : c0 = '/' := by
                have := dropWhile_head_not _ r c0 t0 hdw
                simpa using this
              subst hc0
              refine ⟨t0, ?_⟩
              conv_lhs => rw [← List.takeWhile_append_dropWhile (fun c => decide (c ≠ '/')) r]
              rw [hdw]
    · rintro ⟨hne, hslash, rest, hr⟩
      have hr' : r = id ++ '/' :: rest := by
        have := List.append_inj hr rfl
        exact this.2
      subst hr'
      have hall : ∀ c ∈ id, (fun c => decide (c ≠ '/')) c = true := by
        intro c hc
        simp [hslash c hc]
      have ht : ((id ++ '/' :: rest).takeWhile (fun c => decide (c ≠ '/'))) = id := by
        rw [takeWhile_append_of_all _ _ _ hall, List.takeWhile_cons]
        simp
      have hd : ((id ++ '/' :: rest).dropWhile (fun c => decide (c ≠ '/'))) = '/' :: rest := by
        rw [dropWhile_append_of_all _ _ _ hall, List.dropWhile_cons]
        simp
      rw [ht, hd]
      rw [if_neg (by simp [List.isEmpty_iff, hne]), if_neg (by simp [List.isEmpty_iff])]

/-! ## Lemmas: StringSet -/

theorem decode_encode (s : String) : StringSet.decode_ (StringSet.encode_ s) = s := by
  unfold StringSet.encode_ StringSet.decode_
  by_cases h : s ∈ objectPrototypeProps ∨ s.data.head? = some ' '
  · rw [if_pos h]
    have hdata : (" " ++ s).data = ' ' :: s.data := by
      rw [String.data_append]
      rfl
    rw [hdata]
    simp
  · rw [if_neg h]
    have hns : ¬ s.data.head? = some ' ' := fun hc => h (Or.inr hc)
    rw [if_neg hns]

theorem encode_injective (a b : String) (h : StringSet.encode_ a = StringSet.encode_ b) :
    a = b := by
  have h2 := congrArg StringSet.decode_ h
  rwa [decode_encode, decode_encode] at h2

theorem encode_not_mem_proto (s : String) : StringSet.encode_ s ∉ objectPrototypeProps := by
  unfold StringSet.encode_
  by_cases h : s ∈ objectPrototypeProps ∨ s.data.head? = some ' '
  · rw [if_pos h]
    intro hmem
    have hns : ∀ p ∈ objectPrototypeProps, ¬ p.data.head? = some ' ' := by decide
    have hh : (" " ++ s).data.head? = some ' ' := by
      rw [String.data_append]
      rfl
    exact hns _ hmem hh
  · rw [if_neg h]
    exact fun hmem => h (Or.inl hmem)

theorem encode_mem_map_iff (x : String) (acc : List String) :
    StringSet.encode_ x ∈ acc.map StringSet.encode_ ↔ x ∈ acc := by
  constructor
  · intro h
    rcases List.mem_map.1 h with ⟨y, hy, hxy⟩
    rwa [← encode_injective y x hxy]
  · exact fun h => List.mem_map_of_mem _ h

theorem foldl_add_ownKeys (l : List String) :
    ∀ acc : List String,
      (l.foldl StringSet.add ⟨⟨acc.map StringSet.encode_⟩⟩).elements_.ownKeys
        = (l.foldl (fun a s => if s ∈ a then a else a ++ [s]) acc).map StringSet.encode_ := by
  induction l with
  | nil => intro acc; rfl
  | cons x xs ih =>
    intro acc
    have hstep : StringSet.add ⟨⟨acc.map StringSet.encode_⟩⟩ x =
        ⟨⟨(if x ∈ acc then acc else acc ++ [x]).map StringSet.encode_⟩⟩ := by
      unfold StringSet.add JSObj.assign
      by_cases hx : x ∈ acc
      · rw [if_pos hx, if_pos ((encode_mem_map_iff x acc).2 hx)]
      · rw [if_neg hx, if_neg (fun hc => hx ((encode_mem_map_iff x acc).1 hc))]
        simp
    rw [List.foldl_cons, List.foldl_cons, hstep, ih]

theorem ofList_ownKeys (l : List String) :
    (StringSet.ofList l).elements_.ownKeys = (firstOccurrences l).map StringSet.encode_ :=
  foldl_add_ownKeys l []

theorem mem_firstOccurrences_foldl (l : List String) :
    ∀ (acc : List String) (x : String),
      (x ∈ l.foldl (fun a s => if s ∈ a then a else a ++ [s]) acc) ↔ x ∈ acc ∨ x ∈ l := by
  induction l with
  | nil => intro acc x; simp
  | cons y ys ih =>
    intro acc x
    rw [List.foldl_cons, ih]
    by_cases hy : y ∈ acc
    · rw [if_pos hy]
      constructor
      · rintro (h | h)
        · exact Or.inl h
        · exact Or.inr (by simp [h])
      · rintro (h | h)
        · exact Or.inl h
        · rcases List.mem_cons.1 h with rfl | h2
          · exact Or.inl hy
          · exact Or.inr h2
    · rw [if_neg hy]
      simp only [List.mem_append, List.mem_singleton, List.mem_cons]
      tauto

theorem mem_firstOccurrences (l : List String) (x : String) :
    x ∈ firstOccurrences l ↔ x ∈ l := by
  rw [firstOccurrences, mem_firstOccurrences_foldl]
  simp

theorem nodup_firstOccurrences_foldl (l : List String) :
    ∀ acc : List String, acc.Nodup →
      (l.foldl (fun a s => if s ∈ a then a else a ++ [s]) acc).Nodup := by
  induction l with
  | nil => intro acc h; exact h
  | cons y ys ih =>
    intro acc h
    rw [List.foldl_cons]
    by_cases hy : y ∈ acc
    · rw [if_pos hy]
      exact ih acc h
    · rw [if_neg hy]
      exact ih (acc ++ [y]) (by simp [List.nodup_append, h, hy])

theorem nodup_firstOccurrences (l : List String) : (firstOccurrences l).Nodup :=
  nodup_firstOccurrences_foldl l [] List.nodup_nil

theorem ofList_values (l : List String) :
    (StringSet.ofList l).values = firstOccurrences l := by
  rw [StringSet.values, ofList_ownKeys, List.map_map]
  have : (firstOccurrences l).map (StringSet.decode_ ∘ StringSet.encode_)
      = (firstOccurrences l).map id :=
    List.map_congr_left (fun a _ => decode_encode a)
  rw [this, List.map_id]

theorem has_ofList (l : List String) (s : String) (h : s ∈ l) :
    (StringSet.ofList l).has s = true := by
  unfold StringSet.has StringSet.containsElem JSObj.hasProp
  rw [ofList_ownKeys]
  have hmem : StringSet.encode_ s ∈ (firstOccurrences l).map StringSet.encode_ :=
    List.mem_map_of_mem _ ((mem_firstOccurrences l s).2 h)
  have hcont : ((firstOccurrences l).map StringSet.encode_).contains (StringSet.encode_ s)
      = true := by
    simpa [List.elem_iff] using hmem
  rw [Bool.or_eq_true]
  exact Or.inl hcont

theorem mem_values_ofList (l : List String) (s : String) :
    s ∈ (StringSet.ofList l).values ↔ s ∈ l := by
  rw [ofList_values, mem_firstOccurrences]

/-! ## Lemmas: the extension sanitizers -/

theorem sanitizeExtensionUrl_spec (schemeData : List Char) (url : String) (eid : ExtensionId) :
    ((∃ id, ExtMatches schemeData url id ∧ String.mk id ∈ acceptedExtensionIds eid) →
      SafeUrl.sanitizeExtensionUrl_ schemeData url eid
        = SafeUrl.createSafeUrlSecurityPrivateDoNotAccessOrElse url) ∧
    ((¬ ∃ id, ExtMatches schemeData url id ∧ String.mk id ∈ acceptedExtensionIds eid) →
      SafeUrl.sanitizeExtensionUrl_ schemeData url eid
        = SafeUrl.createSafeUrlSecurityPrivateDoNotAccessOrElse SafeUrl.INNOCUOUS_STRING) := by
  cases hx : extExtract schemeData url.data with
  | none =>
    constructor
    · rintro ⟨id, hm, _⟩
      have hsome : extExtract schemeData url.data = some id :=
        (extExtract_eq_some_iff _ _ _).2 hm
      rw [hx] at hsome
      cases hsome
    · intro _
      unfold SafeUrl.sanitizeExtensionUrl_
      rw [hx]
  | some id0 =>
    have hm0 : ExtMatches schemeData url id0 := (extExtract_eq_some_iff _ _ _).1 hx
    have hred : SafeUrl.sanitizeExtensionUrl_ schemeData url eid
        = SafeUrl.createSafeUrlSecurityPrivateDoNotAccessOrElse
          (if (acceptedExtensionIds eid).contains (String.mk id0) then url
           else SafeUrl.INNOCUOUS_STRING) := by
      unfold SafeUrl.sanitizeExtensionUrl_
      rw [hx]
    constructor
    · rintro ⟨id, hm, hmem⟩
      have hsome : extExtract schemeData url.data = some id :=
        (extExtract_eq_some_iff _ _ _).2 hm
      rw [hx] at hsome
      injection hsome with e
      subst e
      have hcont : (acceptedExtensionIds eid).contains (String.mk id0) = true := by
        simpa [List.elem_iff] using hmem
      rw [hred, if_pos hcont]
    · intro hno
      have hcont : ¬ (acceptedExtensionIds eid).contains (String.mk id0) = true := by
        intro hc
        exact hno ⟨id0, hm0, by simpa [List.elem_iff] using hc⟩
      rw [hred, if_neg hcont]

/-! ## Claim theorems -/

/-- C1: the claim asserts every scheme validator is total and never throws;
the code contradicts this (and its own `@return` documentation):
`fromSipUrl("sip:%")` propagates a `URIError` from the unguarded
`decodeURIComponent` call, and `fromSmsUrl("sms:?BODY=hi")` throws a
`TypeError` because the case-insensitive `body=` counter finds one match
but the case-sensitive extraction regex returns `null`, which is then
indexed.  This theorem evaluates the embedded code at both failing
inputs. -/
theorem c1_validators_throw :
    SafeUrl.fromSipUrl "sip:%" = none ∧ SafeUrl.fromSmsUrl "sms:?BODY=hi" = none := by
  constructor
  · rfl
  · rfl

/-- C2: for every string, if it matches the generic safe-URL grammar then
`sanitize` unwraps to exactly that string, and if it matches neither the
grammar nor the data-URL validator then `sanitize` unwraps to the innocuous
fallback string. -/
theorem c2_sanitize_grammar (x : String) :
    (SafeUrlPatternSpec x → (SafeUrl.sanitize (UrlInput.str x)).getTypedStringValue = x) ∧
    (¬ SafeUrlPatternSpec x → SafeUrl.tryFromDataUrl x = none →
      (SafeUrl.sanitize (UrlInput.str x)).getTypedStringValue = SafeUrl.INNOCUOUS_STRING) := by
  constructor
  · intro h
    have ht : safeUrlPatternTest x = true := (safeUrlPatternTest_iff x).2 h
    simp [SafeUrl.sanitize, SafeUrl.trySanitize, trySanitizeString, ht,
      SafeUrl.createSafeUrlSecurityPrivateDoNotAccessOrElse, SafeUrl.construct,
      SafeUrl.getTypedStringValue]
  · intro h hnone
    have ht : safeUrlPatternTest x = false :=
      Bool.eq_false_iff.2 (fun hc => h ((safeUrlPatternTest_iff x).1 hc))
    simp [SafeUrl.sanitize, SafeUrl.trySanitize, trySanitizeString, ht, hnone,
      SafeUrl.INNOCUOUS_URL, SafeUrl.createSafeUrlSecurityPrivateDoNotAccessOrElse,
      SafeUrl.construct, SafeUrl.getTypedStringValue]

/-- Witness for C2 at a grammar-matching and a rejected input. -/
theorem c2_sanitize_grammar_witness :
    (SafeUrl.sanitize (UrlInput.str "https://example.com/a?b#c")).getTypedStringValue
        = "https://example.com/a?b#c" ∧
    (SafeUrl.sanitize (UrlInput.str "javascript:alert(1)")).getTypedStringValue
        = SafeUrl.INNOCUOUS_STRING :=
  ⟨(c2_sanitize_grammar _).1 (by decide),
   (c2_sanitize_grammar _).2 (by decide) (by decide)⟩

/-- C3: `unwrap` returns the wrapped payload without reporting a failure
exactly on values whose runtime type is exactly `SafeUrl`; on every other
value (subclass instance, look-alike object, or other value) it reports an
assertion failure and returns the marker string `type_error:SafeUrl`. -/
theorem c3_unwrap_exact_type (v : RuntimeValue) :
    ((SafeUrl.unwrap v).2 = false ↔ ∃ u, v = RuntimeValue.exactSafeUrl u) ∧
    (∀ u, v = RuntimeValue.exactSafeUrl u →
      SafeUrl.unwrap v = (u.privateDoNotAccessOrElseSafeUrlWrappedValue_, false)) ∧
    ((∀ u, v ≠ RuntimeValue.exactSafeUrl u) →
      SafeUrl.unwrap v = ("type_error:SafeUrl", true)) := by
  cases v with
  | exactSafeUrl u0 =>
    refine ⟨⟨fun _ => ⟨u0, rfl⟩, fun _ => rfl⟩, ?_, ?_⟩
    · intro u hu
      injection hu with e
      subst e
      rfl
    · intro h
      exact absurd rfl (h u0)
  | subclassOfSafeUrl s =>
    refine ⟨by simp [SafeUrl.unwrap], ?_, ?_⟩
    · intro u h
      cases h
    · intro _
      rfl
  | lookAlike s =>
    refine ⟨by simp [SafeUrl.unwrap], ?_, ?_⟩
    · intro u h
      cases h
    · intro _
      rfl
  | otherValue s =>
    refine ⟨by simp [SafeUrl.unwrap], ?_, ?_⟩
    · intro u h
      cases h
    · intro _
      rfl

/-- Witness for C3: a genuine instance and a look-alike object. -/
theorem c3_unwrap_exact_type_witness :
    SafeUrl.unwrap (RuntimeValue.exactSafeUrl
        (SafeUrl.createSafeUrlSecurityPrivateDoNotAccessOrElse "https://a/"))
      = ("https://a/", false) ∧
    SafeUrl.unwrap (RuntimeValue.lookAlike "https://a/") = ("type_error:SafeUrl", true) :=
  ⟨(c3_unwrap_exact_type _).2.1 _ rfl,
   (c3_unwrap_exact_type _).2.2 (fun u h => by cases h)⟩

/-- C4: `tryFromDataUrl` removes the `%0A`/`%0D` escapes, succeeds exactly
when the filtered string matches the data-URL grammar (whose MIME capture
is unconstrained: no allow-list check), wrapping the filtered string, and
returns null otherwise; `fromDataUrl` substitutes the innocuous URL for
null. -/
theorem c4_tryFromDataUrl (s : String) :
    (DataUrlSpec (stripCrLf s.data) →
      SafeUrl.tryFromDataUrl s
        = some (SafeUrl.createSafeUrlSecurityPrivateDoNotAccessOrElse
            (String.mk (stripCrLf s.data)))) ∧
    (¬ DataUrlSpec (stripCrLf s.data) → SafeUrl.tryFromDataUrl s = none) ∧
    SafeUrl.fromDataUrl s = (SafeUrl.tryFromDataUrl s).getD SafeUrl.INNOCUOUS_URL := by
  have hred : SafeUrl.tryFromDataUrl s =
      if dataUrlTest (stripCrLf s.data) then
        some (SafeUrl.createSafeUrlSecurityPrivateDoNotAccessOrElse
          (String.mk (stripCrLf s.data)))
      else none := rfl
  refine ⟨?_, ?_, rfl⟩
  · intro h
    rw [hred, if_pos ((dataUrlTest_iff _).2 h)]
  · intro h
    rw [hred, if_neg (fun hc => h ((dataUrlTest_iff _).1 hc))]

/-- Witness for C4: an accepted data URL whose MIME type is not a media
type (showing the absence of an allow-list check), and a rejected one with
an empty base64 body. -/
theorem c4_tryFromDataUrl_witness :
    SafeUrl.tryFromDataUrl "data:application/x-evil;base64,AA%0A%0DAA"
      = some (SafeUrl.createSafeUrlSecurityPrivateDoNotAccessOrElse
          "data:application/x-evil;base64,AAAA") ∧
    SafeUrl.tryFromDataUrl "data:image/png;base64," = none :=
  ⟨(c4_tryFromDataUrl _).1 (by decide),
   (c4_tryFromDataUrl _).2.1 (by decide)⟩

/-- C5: the claim asserts `fromSmsUrl` wraps its input exactly when the
prefix and body checks pass and the fallback otherwise; the three quoted
examples behave as stated, but the code contradicts the claim (and the
boolean `@return` contract of `isSmsUrlBodyValid_`) on `"sms:?BODY=hi"`,
where it throws a `TypeError` instead of returning a value, because the
counting regex is case-insensitive while the extraction regex is
case-sensitive. -/
theorem c5_fromSmsUrl_examples :
    (SafeUrl.fromSmsUrl "sms:123?body=hello").map SafeUrl.getTypedStringValue
        = some "sms:123?body=hello" ∧
    (SafeUrl.fromSmsUrl "sms:123?body=a&body=b").map SafeUrl.getTypedStringValue
        = some SafeUrl.INNOCUOUS_STRING ∧
    (SafeUrl.fromSmsUrl "sms:123?body=%zz").map SafeUrl.getTypedStringValue
        = some SafeUrl.INNOCUOUS_STRING ∧
    SafeUrl.fromSmsUrl "sms:?BODY=hi" = none :=
  ⟨rfl, rfl, rfl, rfl⟩

/-- C6: each extension sanitizer returns the original url wrapped exactly
when the url matches its scheme grammar and the captured identifier equals
one of the unwrapped whitelist entries, and the innocuous fallback in every
other case. -/
theorem c6_sanitizeExtensionUrls (url : String) (extensionId : ExtensionId) :
    ((∃ id, ExtMatches "chrome-extension://".data url id ∧
        String.mk id ∈ acceptedExtensionIds extensionId) →
      SafeUrl.sanitizeChromeExtensionUrl url extensionId
        = SafeUrl.createSafeUrlSecurityPrivateDoNotAccessOrElse url) ∧
    ((¬ ∃ id, ExtMatches "chrome-extension://".data url id ∧
        String.mk id ∈ acceptedExtensionIds extensionId) →
      SafeUrl.sanitizeChromeExtensionUrl url extensionId
        = SafeUrl.createSafeUrlSecurityPrivateDoNotAccessOrElse SafeUrl.INNOCUOUS_STRING) ∧
    ((∃ id, ExtMatches "moz-extension://".data url id ∧
        String.mk id ∈ acceptedExtensionIds extensionId) →
      SafeUrl.sanitizeFirefoxExtensionUrl url extensionId
        = SafeUrl.createSafeUrlSecurityPrivateDoNotAccessOrElse url) ∧
    ((¬ ∃ id, ExtMatches "moz-extension://".data url id ∧
        String.mk id ∈ acceptedExtensionIds extensionId) →
      SafeUrl.sanitizeFirefoxExtensionUrl url extensionId
        = SafeUrl.createSafeUrlSecurityPrivateDoNotAccessOrElse SafeUrl.INNOCUOUS_STRING) ∧
    ((∃ id, ExtMatches "ms-browser-extension://".data url id ∧
        String.mk id ∈ acceptedExtensionIds extensionId) →
      SafeUrl.sanitizeEdgeExtensionUrl url extensionId
        = SafeUrl.createSafeUrlSecurityPrivateDoNotAccessOrElse url) ∧
    ((¬ ∃ id, ExtMatches "ms-browser-extension://".data url id ∧
        String.mk id ∈ acceptedExtensionIds extensionId) →
      SafeUrl.sanitizeEdgeExtensionUrl url extensionId
        = SafeUrl.createSafeUrlSecurityPrivateDoNotAccessOrElse SafeUrl.INNOCUOUS_STRING) :=
  ⟨(sanitizeExtensionUrl_spec _ url extensionId).1,
   (sanitizeExtensionUrl_spec _ url extensionId).2,
   (sanitizeExtensionUrl_spec _ url extensionId).1,
   (sanitizeExtensionUrl_spec _ url extensionId).2,
   (sanitizeExtensionUrl_spec _ url extensionId).1,
   (sanitizeExtensionUrl_spec _ url extensionId).2⟩

/-- Witness for C6: a whitelisted identifier keeps the url, a different
whitelist yields the fallback. -/
theorem c6_sanitizeExtensionUrls_witness :
    SafeUrl.sanitizeChromeExtensionUrl "chrome-extension://abc/page.html"
        (ExtensionId.single ⟨"abc"⟩)
      = SafeUrl.createSafeUrlSecurityPrivateDoNotAccessOrElse
          "chrome-extension://abc/page.html" ∧
    SafeUrl.sanitizeChromeExtensionUrl "chrome-extension://abc/page.html"
        (ExtensionId.single ⟨"xyz"⟩)
      = SafeUrl.createSafeUrlSecurityPrivateDoNotAccessOrElse SafeUrl.INNOCUOUS_STRING :=
  ⟨(c6_sanitizeExtensionUrls "chrome-extension://abc/page.html" (ExtensionId.single ⟨"abc"⟩)).1
      ⟨"abc".data, ⟨by decide, by decide, "page.html".data, by decide⟩, by decide⟩,
   (c6_sanitizeExtensionUrls "chrome-extension://abc/page.html" (ExtensionId.single ⟨"xyz"⟩)).2.1
      (by
        rintro ⟨id, hm, hmem⟩
        have hx : extExtract "chrome-extension://".data
            "chrome-extension://abc/page.html".data = some id :=
          (extExtract_eq_some_iff _ _ _).2 hm
        have hx0 : extExtract "chrome-extension://".data
            "chrome-extension://abc/page.html".data = some "abc".data := by decide
        rw [hx0] at hx
        injection hx with e
        subst e
        exact absurd hmem (by decide))⟩

/-- C7: constructing a SafeUrl directly stores the requested string when
and only when the module-private constructor token is supplied; any other
token yields the empty string, so outside callers can only build a SafeUrl
wrapping `""`. -/
theorem c7_constructor_token (value : String) (token : GoogObject) :
    (SafeUrl.construct value
        GoogObject.constructorTokenPrivate).privateDoNotAccessOrElseSafeUrlWrappedValue_
      = value ∧
    (token ≠ GoogObject.constructorTokenPrivate →
      (SafeUrl.construct value token).privateDoNotAccessOrElseSafeUrlWrappedValue_ = "") := by
  constructor
  · rfl
  · intro h
    simp [SafeUrl.construct, h]

/-- Witness for C7 with an outside token. -/
theorem c7_constructor_token_witness :
    (SafeUrl.construct "payload"
        GoogObject.constructorTokenPrivate).privateDoNotAccessOrElseSafeUrlWrappedValue_
      = "payload" ∧
    (SafeUrl.construct "payload"
        (GoogObject.outsider 0)).privateDoNotAccessOrElseSafeUrlWrappedValue_ = "" :=
  ⟨(c7_constructor_token "payload" (GoogObject.outsider 0)).1,
   (c7_constructor_token "payload" (GoogObject.outsider 0)).2 (by decide)⟩

/-- C8: `trySanitize` on an existing SafeUrl returns that very value, and
consequently so does `sanitize`. -/
theorem c8_trySanitize_identity (u : SafeUrl) :
    SafeUrl.trySanitize (UrlInput.safe u) = some u ∧
    SafeUrl.sanitize (UrlInput.safe u) = u :=
  ⟨rfl, rfl⟩

/-- C9: `sanitizeAssertUnchanged` returns an existing SafeUrl unchanged;
wraps the exact input when `allowDataUrl` is set, the string starts with
`data:` case-insensitively, and the data-URL validator reproduces the
input; wraps the input when the generic grammar matches; and otherwise
reports an assertion failure as a diagnostic only and returns the wrapped
innocuous string. -/
theorem c9_sanitizeAssertUnchanged (u : SafeUrl) (s : String) (allow : Bool) :
    SafeUrl.sanitizeAssertUnchanged (UrlInput.safe u) allow = (u, false) ∧
    (allow = true → caseInsensitiveStartsWith s "data:" = true →
      (SafeUrl.fromDataUrl s).getTypedStringValue = s →
      SafeUrl.sanitizeAssertUnchanged (UrlInput.str s) allow = (SafeUrl.fromDataUrl s, false)) ∧
    (¬(allow = true ∧ caseInsensitiveStartsWith s "data:" = true ∧
        (SafeUrl.fromDataUrl s).getTypedStringValue = s) →
      safeUrlPatternTest s = true →
      SafeUrl.sanitizeAssertUnchanged (UrlInput.str s) allow
        = (SafeUrl.createSafeUrlSecurityPrivateDoNotAccessOrElse s, false)) ∧
    (¬(allow = true ∧ caseInsensitiveStartsWith s "data:" = true ∧
        (SafeUrl.fromDataUrl s).getTypedStringValue = s) →
      safeUrlPatternTest s = false →
      SafeUrl.sanitizeAssertUnchanged (UrlInput.str s) allow
        = (SafeUrl.createSafeUrlSecurityPrivateDoNotAccessOrElse
            SafeUrl.INNOCUOUS_STRING, true)) := by
  refine ⟨rfl, ?_, ?_, ?_⟩
  · rintro rfl hci hval
    show sanitizeAssertUnchangedString s true = _
    unfold sanitizeAssertUnchangedString
    rw [hci]
    simp [hval]
  · intro hno hpat
    show sanitizeAssertUnchangedString s allow = _
    unfold sanitizeAssertUnchangedString
    by_cases hc : (allow && caseInsensitiveStartsWith s "data:") = true
    · rw [if_pos hc]
      have h1 : allow = true ∧ caseInsensitiveStartsWith s "data:" = true := by
        simpa [Bool.and_eq_true] using hc
      have hval : ¬ (SafeUrl.fromDataUrl s).getTypedStringValue = s :=
        fun hv => hno ⟨h1.1, h1.2, hv⟩
      rw [if_neg hval]
      unfold sanitizeAssertTail
      rw [if_pos hpat]
    · rw [if_neg hc]
      unfold sanitizeAssertTail
      rw [if_pos hpat]
  · intro hno hpat
    show sanitizeAssertUnchangedString s allow = _
    unfold sanitizeAssertUnchangedString
    have hpat' : ¬ safeUrlPatternTest s = true := by simp [hpat]
    by_cases hc : (allow && caseInsensitiveStartsWith s "data:") = true
    · rw [if_pos hc]
      have h1 : allow = true ∧ caseInsensitiveStartsWith s "data:" = true := by
        simpa [Bool.and_eq_true] using hc
      have hval : ¬ (SafeUrl.fromDataUrl s).getTypedStringValue = s :=
        fun hv => hno ⟨h1.1, h1.2, hv⟩
      rw [if_neg hval]
      unfold sanitizeAssertTail
      rw [if_neg hpat']
    · rw [if_neg hc]
      unfold sanitizeAssertTail
      rw [if_neg hpat']

/-- Witness for C9 covering all four cases. -/
theorem c9_sanitizeAssertUnchanged_witness :
    SafeUrl.sanitizeAssertUnchanged (UrlInput.safe SafeUrl.ABOUT_BLANK) false
      = (SafeUrl.ABOUT_BLANK, false) ∧
    SafeUrl.sanitizeAssertUnchanged (UrlInput.str "data:image/png;base64,AAAA") true
      = (SafeUrl.fromDataUrl "data:image/png;base64,AAAA", false) ∧
    SafeUrl.sanitizeAssertUnchanged (UrlInput.str "http://ok/") false
      = (SafeUrl.createSafeUrlSecurityPrivateDoNotAccessOrElse "http://ok/", false) ∧
    SafeUrl.sanitizeAssertUnchanged (UrlInput.str "javascript:x") false
      = (SafeUrl.createSafeUrlSecurityPrivateDoNotAccessOrElse
          SafeUrl.INNOCUOUS_STRING, true) :=
  ⟨(c9_sanitizeAssertUnchanged SafeUrl.ABOUT_BLANK "" false).1,
   (c9_sanitizeAssertUnchanged SafeUrl.ABOUT_BLANK "data:image/png;base64,AAAA" true).2.1
      rfl (by decide) (by decide),
   (c9_sanitizeAssertUnchanged SafeUrl.ABOUT_BLANK "http://ok/" false).2.2.1
      (by decide) (by decide),
   (c9_sanitizeAssertUnchanged SafeUrl.ABOUT_BLANK "javascript:x" false).2.2.2
      (by decide) (by decide)⟩

/-- C10: StringSet key decoding is a left inverse of encoding, encoding is
injective, an added string is reported by `has`, and `values` returns
exactly the distinct added strings (as a duplicate-free list containing
precisely the added elements), including inherited-property names like
`toString` and strings beginning with a space. -/
theorem c10_stringset (s a b : String) (l : List String) :
    StringSet.decode_ (StringSet.encode_ s) = s ∧
    (StringSet.encode_ a = StringSet.encode_ b → a = b) ∧
    (s ∈ l → (StringSet.ofList l).has s = true) ∧
    (s ∈ (StringSet.ofList l).values ↔ s ∈ l) ∧
    (StringSet.ofList l).values.Nodup ∧
    (StringSet.ofList ["toString"]).has "toString" = true ∧
    (StringSet.ofList [" leading"]).values = [" leading"] := by
  refine ⟨decode_encode s, encode_injective a b, has_ofList l s, mem_values_ofList l s,
    ?_, ?_, ?_⟩
  · rw [ofList_values]
    exact nodup_firstOccurrences l
  · rfl
  · rfl

/-- Witness for C10 at concrete inputs, including a proto-colliding key and
a leading-space key. -/
theorem c10_stringset_witness :
    StringSet.decode_ (StringSet.encode_ "toString") = "toString" ∧
    "x" = "x" ∧
    (StringSet.ofList ["toString", " a", "toString"]).has "toString" = true ∧
    (StringSet.ofList ["toString", " a", "toString"]).values.Nodup :=
  ⟨(c10_stringset "toString" "a" "b" []).1,
   (c10_stringset "x" "x" "x" []).2.1 rfl,
   (c10_stringset "toString" "a" "b" ["toString", " a", "toString"]).2.2.1 (by decide),
   (c10_stringset "toString" "a" "b" ["toString", " a", "toString"]).2.2.2.2.1⟩
